import Mathlib

/-!
Verification development for the `grammar_parser` repository
(`src/grammar_parser/cfgparser.py`).

The Python module is shallowly embedded below.  Python strings are modelled
as Lean `String`/`List Char`, with hand-rolled versions of the `str` methods
the module uses (`strip`, `split`, `replace`, slicing), written to follow
CPython semantics (in particular `"".split(" ") = [""]` and
`s.replace("", t)` inserting `t` at every character boundary).  Recursive
procedures whose termination depends on the grammar (the backtracking
matcher `_parse`, the completion walker `_next_word`, `get_unwrapped`, and
the `while` loop of `get_random_sentence`) are given an explicit fuel
argument; exhausting the fuel returns the distinguished error
`Exc.recursionError`, which models CPython's `RecursionError` stack guard.
All fuel recursion is structural, so every concrete computation reduces by
`rfl`.  Python exceptions are modelled by an `Except Exc` result type, one
constructor per exception class raised by the module.

The only piece of behaviour not taken from the repository's own code is the
external YAML decoder used by `parse_raw` (`yaml.safe_load`); `decodeSem`
below models that external collaborator at its interface, on the class of
semantics strings exercised here.
-/

namespace GrammarParser

/-! ## Python string primitives -/

/-- Whitespace characters stripped by Python `str.strip()`. -/
def pyWS (c : Char) : Bool := c = ' ' || c = '\t' || c = '\n' || c = '\r'

/-- Python `str.strip()` on a character list. -/
def stripL (l : List Char) : List Char :=
  ((l.dropWhile pyWS).reverse.dropWhile pyWS).reverse

/-- Python `str.strip()`. -/
def pyStrip (s : String) : String := String.mk (stripL s.toList)

/-- Whether the first list is a prefix of the second. -/
def startsL : List Char → List Char → Bool
  | [], _ => true
  | _ :: _, [] => false
  | a :: as, b :: bs => a = b && startsL as bs

/-- Scanner for Python `str.replace(old, new)` with non-empty `old`:
left-to-right, non-overlapping.  The `Nat` argument skips the remainder of a
match that was just replaced. -/
def replGo (old new : List Char) : Nat → List Char → List Char
  | _, [] => []
  | Nat.succ k, _ :: rest => replGo old new k rest
  | 0, c :: rest =>
    if startsL old (c :: rest) && !old.isEmpty then
      new ++ replGo old new (old.length - 1) rest
    else c :: replGo old new 0 rest

/-- Python `s.replace(old, new)` on character lists.  An empty `old` inserts
`new` before every character and after the last one (CPython behaviour). -/
def pyReplaceL (old new s : List Char) : List Char :=
  if old.isEmpty then new ++ s.foldr (fun c acc => c :: (new ++ acc)) []
  else replGo old new 0 s

/-- Python `s.replace(old, new)`. -/
def pyReplace (s old new : String) : String :=
  String.mk (pyReplaceL old.toList new.toList s.toList)

/-- Scanner for Python `s.replace(old, new, 1)` with non-empty `old`:
replace only the first occurrence. -/
def replFirstL (old new : List Char) : List Char → List Char
  | [] => []
  | c :: rest =>
    if startsL old (c :: rest) && !old.isEmpty then
      new ++ rest.drop (old.length - 1)
    else c :: replFirstL old new rest

/-- Python `s.replace(old, new, 1)` (used by `get_random_sentence`). -/
def pyReplaceFirst (s old new : String) : String :=
  String.mk (replFirstL old.toList new.toList s.toList)

/-- Scanner for Python `s.split(sep)` with non-empty `sep`.  The `Nat`
argument skips the remainder of a separator that was just consumed. -/
def splitGo (sep : List Char) : Nat → List Char → List (List Char)
  | 0, [] => [[]]
  | Nat.succ _, [] => [[]]
  | Nat.succ k, _ :: rest => splitGo sep k rest
  | 0, c :: rest =>
    if startsL sep (c :: rest) && !sep.isEmpty then
      [] :: splitGo sep (sep.length - 1) rest
    else
      match splitGo sep 0 rest with
      | t :: ts => (c :: t) :: ts
      | [] => [[c]]

/-- Python `s.split(sep)` on character lists (`sep` non-empty). -/
def pySplitL (sep l : List Char) : List (List Char) := splitGo sep 0 l

/-- Python `s.split(sep)`. -/
def pySplit (sep s : String) : List String :=
  (pySplitL sep.toList s.toList).map String.mk

/-- Characters up to the first `]`, and the remainder after it (models
`s.find("]", i)` plus the two slices taken from the result). -/
def splitAtClose : List Char → Option (List Char × List Char)
  | [] => none
  | c :: rest =>
    if c = ']' then some ([], rest)
    else
      match splitAtClose rest with
      | none => none
      | some (a, b) => some (c :: a, b)

/-! ## Exceptions

One constructor per exception class the Python module can raise:
`GrammarError`, `ParseError`, plain `Exception` (missing target /
malformed arrow / unclosed bracket), `AssertionError` (failed `assert`),
`IndexError` (out-of-range subscript), YAML decode errors bubbling out of
`yaml.safe_load`, and `RecursionError` (CPython's stack guard, reached by
grammar-driven recursion without an own depth limit). -/

inductive Exc where
  | grammarError (msg : String)
  | parseError (words : List String) (word_index : Nat)
  | exc (msg : String)
  | assertionError
  | indexError
  | yamlError (msg : String)
  | recursionError
deriving DecidableEq

/-! ## Grammar symbol model (classes `Conjunct`, `Option`, `Rule`)

The Python class `Option` is named `GOption` here because `Option` is taken
by Lean's core library. -/

/-- Class `Conjunct`: one grammar atom.  `is_variable` is fixed at load time
from the first character of the name (line 137 of the source). -/
structure Conjunct where
  name : String
  rsemantic : String
  is_variable : Bool
deriving DecidableEq

/-- Class `Option`: one alternative of a rule, with its semantics template
and its atoms. -/
structure GOption where
  lsemantic : String
  conjuncts : List Conjunct
deriving DecidableEq

/-- Class `Rule`: a left name and its ordered alternatives. -/
structure Rule where
  lname : String
  options : List GOption
deriving DecidableEq

/-- The state of a `CFGParser` instance: the rule table (`self.rules`, a
name-keyed insertion-ordered dict, modelled as a list of rules with unique
`lname`s) and the function table (`self.functions`). -/
structure Grammar where
  rules : List Rule
  functions : List (String × (List String → List GOption))

/-- Dictionary lookup `self.rules[name]` / `name in self.rules`. -/
def findRule (g : Grammar) (n : String) : Option Rule :=
  g.rules.find? (fun r => r.lname == n)

/-- Dictionary lookup `self.functions[name]` / `name in self.functions`. -/
def findFunction (g : Grammar) (n : String) : Option (List String → List GOption) :=
  (g.functions.find? (fun p => p.1 == n)).map (fun p => p.2)

/-- Whether an atom name is a function reference (`conj.name[0] == "$"`).
The Python subscript would raise on an empty name; the loader below rejects
empty atom names, so the two agree on every constructible conjunct. -/
def isFuncName (n : String) : Bool := n.toList.head? = some '$'

/-! ## Grammar text loader -/

/-- Scanner of `parse_next_atom` (source lines 300-322): walk the stripped
string; a space ends the atom; `[` opens the semantics block, which runs to
the first `]` (`raise Exception` if there is none). -/
def pnaGo (acc : List Char) : List Char → Except Exc (List Char × List Char × List Char)
  | [] => .ok (acc.reverse, [], [])
  | ' ' :: rest => .ok (acc.reverse, [], stripL (' ' :: rest))
  | '[' :: rest =>
    match splitAtClose rest with
    | none => .error (.exc "parse_next_atom: no closing bracket")
    | some (sem, after) => .ok (acc.reverse, sem, stripL after)
  | c :: rest => pnaGo (c :: acc) rest

/-- `parse_next_atom(s)`: returns `(name, semantics, remaining)`. -/
def parse_next_atom (s : String) : Except Exc (String × String × String) :=
  match pnaGo [] (stripL s.toList) with
  | .ok (n, sem, rest) => .ok (String.mk n, String.mk sem, String.mk rest)
  | .error e => .error e

/-- The `while opt_str:` loop of `Option.from_cfg_def` (source lines
135-138): repeatedly take the next atom and classify it by its leading
character.  `rname[0]` on an empty name would raise `IndexError`.  Each
iteration strictly shortens the string, so fuel `length + 1` never runs
out. -/
def conjunctsGo : Nat → List Char → Except Exc (List Conjunct)
  | 0, _ => .error .recursionError
  | Nat.succ fl, s =>
    if s.isEmpty then .ok []
    else
      match pnaGo [] (stripL s) with
      | .error e => .error e
      | .ok (rname, rsem, rest) =>
        match rname with
        | [] => .error .indexError
        | c :: _ =>
          match conjunctsGo fl rest with
          | .error e => .error e
          | .ok cs => .ok (⟨String.mk rname, String.mk rsem, c.isUpper⟩ :: cs)

/-- The per-alternative loop of `Option.from_cfg_def`: split on `|`, strip
each piece, and parse its atoms. -/
def optionsGo (lsem : String) : List (List Char) → Except Exc (List GOption)
  | [] => .ok []
  | o :: os =>
    match conjunctsGo (o.length + 1) (stripL o) with
    | .error e => .error e
    | .ok cs =>
      match optionsGo lsem os with
      | .error e => .error e
      | .ok rest => .ok (⟨lsem, cs⟩ :: rest)

/-- `Option.from_cfg_def(option_definition, left_semantics)` (source lines
125-140). -/
def GOption.from_cfg_def (option_definition left_semantics : String) :
    Except Exc (List GOption) :=
  optionsGo left_semantics (pySplitL ['|'] option_definition.toList)

/-- `Rule.from_cfg_def(s)` (source lines 222-234): split on the literal
arrow `" -> "`, require exactly two pieces, read the left atom, parse the
alternatives. -/
def Rule.from_cfg_def (s : String) : Except Exc Rule :=
  match pySplitL [' ', '-', '>', ' '] s.toList with
  | [l, r] =>
    match parse_next_atom (String.mk (stripL l)) with
    | .error e => .error e
    | .ok (lname, lsem, _) =>
      match GOption.from_cfg_def (String.mk r) lsem with
      | .error e => .error e
      | .ok opts => .ok ⟨lname, opts⟩
  | _ => .error (.exc "Invalid grammar, please use proper arrows")

/-- Merge of `add_rule` (source lines 411-419): append the new options to an
existing rule with the same `lname`, else append a new rule. -/
def mergeRule (rs : List Rule) (nr : Rule) : List Rule :=
  match rs with
  | [] => [nr]
  | r :: rest =>
    if r.lname == nr.lname then ⟨r.lname, r.options ++ nr.options⟩ :: rest
    else r :: mergeRule rest nr

/-- `CFGParser.add_rule(s)`. -/
def add_rule (g : Grammar) (s : String) : Except Exc Grammar :=
  match Rule.from_cfg_def s with
  | .error e => .error e
  | .ok r => .ok ⟨mergeRule g.rules r, g.functions⟩

/-- One conjunct check of `check_rules` (source lines 388-399). -/
def checkConj (g : Grammar) (c : Conjunct) : Bool :=
  (if c.is_variable then (findRule g c.name).isSome else true) &&
  (if isFuncName c.name then
     (findFunction g (String.mk (c.name.toList.drop 1))).isSome
   else true)

/-- `CFGParser.check_rules()`: a failing `assert` raises
`AssertionError`. -/
def check_rules (g : Grammar) : Except Exc Unit :=
  if g.rules.all (fun r => r.options.all (fun o => o.conjuncts.all (checkConj g))) then
    .ok ()
  else .error .assertionError

/-- The line loop of `CFGParser.fromstring` (source lines 379-383): skip
blank lines and `#` comments, feed the rest to `add_rule`. -/
def addLines (g : Grammar) : List (List Char) → Except Exc Grammar
  | [] => .ok g
  | l :: ls =>
    let t := stripL l
    if t.isEmpty || t.head? = some '#' then addLines g ls
    else
      match add_rule g (String.mk t) with
      | .error e => .error e
      | .ok g2 => addLines g2 ls

/-- `CFGParser.fromstring(s)` on a fresh parser with no functions:
`;` acts as a newline, then lines are loaded and `check_rules` runs. -/
def fromstring (s : String) : Except Exc Grammar :=
  match addLines ⟨[], []⟩ (pySplitL ['\n'] (pyReplaceL [';'] ['\n'] s.toList)) with
  | .error e => .error e
  | .ok g =>
    match check_rules g with
    | .error e => .error e
    | .ok _ => .ok g

/-- Convenience: the grammar loaded from `s`, defaulting to the empty
grammar if loading fails.  Every theorem below that uses `loadG` also pins
the loaded rule table, so the default is never silently relied upon. -/
def loadG (s : String) : Grammar :=
  match fromstring s with
  | .ok g => g
  | .error _ => ⟨[], []⟩

/-! ## Semantics values and the external YAML decoder -/

/-- Decoded semantics: the nested map/sequence/scalar values produced by
the flow-style structured-data decoder.  `null` is Python `None` (what
`yaml.safe_load("")` returns), `map []` is the empty dict `{}`. -/
inductive SemVal where
  | null
  | str (s : String)
  | map (kvs : List (String × SemVal))

/-- Whether a stripped scalar is a plain double-quoted string with no inner
quote or escape. -/
def isQuotedScalar (l : List Char) : Bool :=
  match l with
  | '"' :: rest =>
    !rest.isEmpty && rest.getLast? = some '"' &&
      !(rest.dropLast.contains '"') && !(rest.dropLast.contains '\\')
  | _ => false

/-- Modelled from the spec: the external "standard flow-style
structured-data parser" (`yaml.safe_load`) that `parse_raw` applies to the
substituted semantics string; the library itself is an external
collaborator, not part of this repository.  The model covers the fragment
exercised by the grammars in this development: the empty string decodes to
`null` (Python `None`), `\x7b\x7d` decodes to the empty map, a double-quoted
scalar decodes to its contents, a plain scalar without structural characters
decodes to itself, and any other use of structural characters (for example
the lone `[` produced by an unbalanced template) is a decode error, as it is
in YAML. -/
def decodeSem (s : String) : Except String SemVal :=
  let t := stripL s.toList
  if t.isEmpty then .ok .null
  else if t = ['\x7b', '\x7d'] then .ok (.map [])
  else if isQuotedScalar t then .ok (.str (String.mk ((t.drop 1).dropLast)))
  else if t.any (fun c =>
      c = '\x7b' || c = '\x7d' || c = '[' || c = ']' ||
      c = ':' || c = ',' || c = '"' || c = '\\') then
    .error ("yaml: cannot decode " ++ String.mk t)
  else .ok (.str (String.mk t))

/-! ## Parse trees and `get_semantics` -/

/-- A fully matched parse node (class `Tree` after a successful `_parse`):
the alternative's semantics template and, in atom order, one entry per atom
whose slot was filled by a sub-parse — the pair of the atom's `rsemantic`
and the child node.  Terminal atoms leave their slot `None` and
`get_semantics` skips them, so they are simply omitted here. -/
inductive PTree where
  | node (lsem : String) (kids : List (String × PTree))

/-- The substitution loop of `get_semantics` (source lines 429-442):
starting from the template, replace each filled atom's `rsemantic` by the
child's recursively computed semantics, left to right.  The fuel only
bounds recursion depth; every tree produced by a matcher run of fuel `n`
has depth below `n`, so the same fuel is always sufficient. -/
def semSteps : Nat → String → List (String × PTree) → String
  | 0, sem, _ => sem
  | _ + 1, sem, [] => sem
  | fl + 1, sem, (r, PTree.node l2 k2) :: rest =>
    semSteps fl (pyReplace sem r (semSteps fl l2 k2)) rest

/-- `CFGParser.get_semantics(tree)`. -/
def get_semantics (fuel : Nat) : PTree → String
  | .node lsem kids => semSteps fuel lsem kids

/-- The success path of `parse_raw` (source lines 511-515): take the tree's
semantics, translate angle brackets to square brackets, and decode; a
decoder failure is re-raised (`yaml` errors "bubble up"). -/
def finishSem (fuel : Nat) (t : PTree) : Except Exc SemVal :=
  match decodeSem (pyReplace (pyReplace (get_semantics fuel t) "<" "[") ">" "]") with
  | .ok v => .ok v
  | .error m => .error (.yamlError m)

/-! ## The backtracking matcher `_parse`

`_parse` walks a mutable tree with parent pointers; `tree.next(idx)`
resumes the parent at the slot after the current sub-rule.  That traversal
state is embedded as a stack of frames: the current frame holds the
alternative's semantics template, the children recorded so far (in reverse),
and the atoms still to match; the parents hold the same for every enclosing
alternative, each with its sub-rule atom still at the head of `rest`.  The
candidate loop over a sub-rule's alternatives (source lines 582-592) is the
`alts` task.  Every step consumes one unit of fuel, so the recursion is
structural and concrete runs reduce by `rfl`. -/

/-- One suspended alternative: template, children built so far (reversed),
atoms still to process. -/
structure Frame where
  lsem : String
  doneKids : List (String × PTree)
  rest : List Conjunct

/-- Result of `_parse`: Python returns `None` on success (here: the
completed root tree, which the mutation-based original leaves behind in the
caller's `tree` variable) or the failing word index. -/
inductive MatchRes where
  | success (t : PTree)
  | failAt (i : Nat)

/-- The two mutually recursive shapes of `_parse`: matching at a frame
stack, and the candidate loop over a sub-rule's (or function's)
alternatives carrying `best_fail`. -/
inductive Task where
  | frames (fr : Frame) (parents : List Frame) (wi : Nat)
  | alts (opts : List GOption) (fr : Frame) (parents : List Frame) (wi : Nat) (bf : Option Nat)

/-- The `best_fail` update (source lines 588-589): keep the maximum, first
one found on ties. -/
def mergeBf : Option Nat → Nat → Nat
  | none, r => r
  | some b, r => max b r

/-- `CFGParser._parse` (source lines 523-592). -/
def run : Nat → Grammar → List String → Task → Except Exc MatchRes
  | 0, _, _, _ => .error .recursionError
  | Nat.succ fl, g, words, Task.frames fr parents wi =>
    match fr.rest with
    | [] =>
      match parents with
      | [] =>
        if wi = words.length then .ok (.success (PTree.node fr.lsem fr.doneKids.reverse))
        else .ok (.failAt wi)
      | p :: ps =>
        match p.rest with
        | [] => .error (.exc "broken parse tree invariant")
        | c :: rt =>
          run fl g words (.frames
            ⟨p.lsem, (c.rsemantic, PTree.node fr.lsem fr.doneKids.reverse) :: p.doneKids, rt⟩
            ps wi)
    | conj :: rt =>
      if conj.is_variable then
        match findRule g conj.name with
        | none => .error (.grammarError ("Rule " ++ conj.name ++ " does not exist"))
        | some rule => run fl g words (.alts rule.options fr parents wi none)
      else if isFuncName conj.name then
        match findFunction g (String.mk (conj.name.toList.drop 1)) with
        | none =>
          .error (.grammarError
            ("Function " ++ String.mk (conj.name.toList.drop 1) ++ " does not exist"))
        | some f => run fl g words (.alts (f (words.drop wi)) fr parents wi none)
      else
        if words.length ≤ wi then .ok (.failAt wi)
        else if conj.name = words.getD wi "" then
          run fl g words (.frames ⟨fr.lsem, fr.doneKids, rt⟩ parents (wi + 1))
        else .ok (.failAt wi)
  | Nat.succ _, _, _, Task.alts [] _ _ _ none => .error .assertionError
  | Nat.succ _, _, _, Task.alts [] _ _ _ (some b) => .ok (.failAt b)
  | Nat.succ fl, g, words, Task.alts (o :: os) fr parents wi bf =>
    match run fl g words (.frames ⟨o.lsemantic, [], o.conjuncts⟩ (fr :: parents) wi) with
    | .ok (.success t) => .ok (.success t)
    | .ok (.failAt r) => run fl g words (.alts os fr parents wi (some (mergeBf bf r)))
    | .error e => .error e

/-- The initial task for one top-level alternative (`Tree(opt)` with index
0, source line 506). -/
def initTask (o : GOption) (parents : List Frame) (wi : Nat) : Task :=
  .frames ⟨o.lsemantic, [], o.conjuncts⟩ parents wi

/-- Result of matching one top-level alternative, when it is a failure
(used to state the furthest-failure theorems). -/
def optFail (fuel : Nat) (g : Grammar) (words : List String) (o : GOption) : Option Nat :=
  match run fuel g words (initTask o [] 0) with
  | .ok (.failAt r) => some r
  | _ => none

/-! ## `parse_raw` and `parse` -/

/-- The alternative loop of `parse_raw` (source lines 504-521): try each
top-level alternative; the first success is decoded; otherwise track the
maximal failure index and finally raise `ParseError(words, best_fail)`
(`assert best_fail is not None` fires on a rule with no options). -/
def tryTop (fuel : Nat) (g : Grammar) : List GOption → List String → Option Nat → Except Exc SemVal
  | [], _, none => .error .assertionError
  | [], words, some b => .error (.parseError words b)
  | o :: os, words, bf =>
    match run fuel g words (initTask o [] 0) with
    | .ok (.success t) => finishSem fuel t
    | .ok (.failAt r) => tryTop fuel g os words (some (mergeBf bf r))
    | .error e => .error e

/-- `CFGParser.parse_raw(target, words)` with `words` already a list.  A
missing target raises a plain `Exception` (source line 500). -/
def parse_raw (fuel : Nat) (g : Grammar) (target : String) (words : List String) :
    Except Exc SemVal :=
  match findRule g target with
  | none => .error (.exc ("Target " ++ target ++ " not present in grammar rules"))
  | some rule => tryTop fuel g rule.options words none

/-- The tokenizer applied when `words` is a string:
`words.split(" ")` (source lines 496-497). -/
def strToWords (s : String) : List String := pySplit " " s

/-- `CFGParser.parse_raw(target, words)` with `words` given as a string. -/
def parse_rawStr (fuel : Nat) (g : Grammar) (target s : String) : Except Exc SemVal :=
  parse_raw fuel g target (strToWords s)

/-- `CFGParser.parse(target, words)` (source lines 446-474): `GrammarError`
and `ParseError` are caught and turned into the empty dict `{}`; every
other exception propagates. -/
def parse (fuel : Nat) (g : Grammar) (target : String) (words : List String) :
    Except Exc SemVal :=
  match parse_raw fuel g target words with
  | .error (.grammarError _) => .ok (.map [])
  | .error (.parseError _ _) => .ok (.map [])
  | r => r

/-! ## The completion walker `next_word` / `_next_word`

`_next_word` reuses the tree walk of `_parse` but needs no semantics, so
its traversal state is just the stack of remaining-conjunct lists, the head
of each being the atom currently under consideration.  Unlike `_parse`,
`_next_word` reads `tree.option.conjuncts[idx]` without first checking
`idx` against the length (compare source line 614 with line 544), so an
empty alternative raises `IndexError`. -/

/-- `Tree.next(idx)` (source lines 263-270) as a stack operation: the head
atom of the current frame was consumed; move to the following atom,
popping completed frames; popping past the root yields the empty stack,
which plays the role of `(None, 0)`. -/
def advanceStack : List (List Conjunct) → List (List Conjunct)
  | [] => []
  | (_ :: c2 :: cr) :: ps => (c2 :: cr) :: ps
  | _ :: ps => advanceStack ps

/-- The two shapes of `_next_word`: walking at a stack, and the union loop
over a sub-rule's (or function's) alternatives. -/
inductive NwTask where
  | step (stack : List (List Conjunct))
  | alts (opts : List GOption) (stack : List (List Conjunct))

/-- `CFGParser._next_word` (source lines 608-640).  The empty stack is the
`not tree` case returning `[]`; a frame whose conjunct list is empty is the
unguarded `conjuncts[idx]` subscript, which raises `IndexError`. -/
def nwRun : Nat → Grammar → NwTask → List String → Except Exc (List String)
  | 0, _, _, _ => .error .recursionError
  | Nat.succ _, _, .step [], _ => .ok []
  | Nat.succ _, _, .step ([] :: _), _ => .error .indexError
  | Nat.succ fl, g, .step ((conj :: cr) :: ps), words =>
    if conj.is_variable then
      match findRule g conj.name with
      | none => .ok []
      | some rule => nwRun fl g (.alts rule.options ((conj :: cr) :: ps)) words
    else if isFuncName conj.name then
      match findFunction g (String.mk (conj.name.toList.drop 1)) with
      | none => .ok []
      | some f => nwRun fl g (.alts (f words) ((conj :: cr) :: ps)) words
    else
      match words with
      | [] => .ok [conj.name]
      | w :: ws =>
        if conj.name = w then nwRun fl g (.step (advanceStack ((conj :: cr) :: ps))) ws
        else .ok []
  | Nat.succ _, _, .alts [] _, _ => .ok []
  | Nat.succ fl, g, .alts (o :: os) stack, words =>
    match nwRun fl g (.step (o.conjuncts :: stack)) words with
    | .error e => .error e
    | .ok ws1 =>
      match nwRun fl g (.alts os stack) words with
      | .error e => .error e
      | .ok ws2 => .ok (ws1 ++ ws2)

/-- `CFGParser.next_word(target, words)` (source lines 596-606): an unknown
target yields `[]`; otherwise the per-alternative results are concatenated
with `+=` into a plain list. -/
def next_word (fuel : Nat) (g : Grammar) (target : String) (words : List String) :
    Except Exc (List String) :=
  match findRule g target with
  | none => .ok []
  | some rule => nwRun fuel g (.alts rule.options []) words

/-! ## `get_unwrapped` and `get_random_sentence` -/

/-- The three recursion shapes of `get_unwrapped` (source lines 678-703):
unwrapping a rule, the loop over its options (each yielding one
space-joined string), and the loop over one option's conjuncts (yielding
the conjunct strings, with empty sub-rule unwrappings skipped). -/
inductive UwTask where
  | rule (lname : String)
  | opts (os : List GOption)
  | conjs (cs : List Conjunct)

/-- `CFGParser.get_unwrapped` (source lines 678-703).  The `.rule` task
returns a one-element list holding the unwrapped string. -/
def unwrapRun : Nat → Grammar → UwTask → Except Exc (List String)
  | 0, _, _ => .error .recursionError
  | Nat.succ fl, g, .rule ln =>
    match findRule g ln with
    | none => .error (.exc ("Target " ++ ln ++ " not present in grammar rules"))
    | some rule =>
      match unwrapRun fl g (.opts rule.options) with
      | .error e => .error e
      | .ok ss =>
        let j := String.intercalate "|" ss
        .ok [if ss.length > 1 then "(" ++ j ++ ")" else j]
  | Nat.succ _, _, .opts [] => .ok []
  | Nat.succ fl, g, .opts (o :: os) =>
    match unwrapRun fl g (.conjs o.conjuncts) with
    | .error e => .error e
    | .ok cs =>
      match unwrapRun fl g (.opts os) with
      | .error e => .error e
      | .ok rest => .ok (String.intercalate " " cs :: rest)
  | Nat.succ _, _, .conjs [] => .ok []
  | Nat.succ fl, g, .conjs (c :: cr) =>
    if c.is_variable then
      match unwrapRun fl g (.rule c.name) with
      | .error e => .error e
      | .ok us =>
        match unwrapRun fl g (.conjs cr) with
        | .error e => .error e
        | .ok rest => .ok (if us.headD "" = "" then rest else us.headD "" :: rest)
    else
      match unwrapRun fl g (.conjs cr) with
      | .error e => .error e
      | .ok rest => .ok (c.name :: rest)

/-- `CFGParser.get_unwrapped(lname)`. -/
def get_unwrapped (fuel : Nat) (g : Grammar) (lname : String) : Except Exc String :=
  match unwrapRun fuel g (.rule lname) with
  | .error e => .error e
  | .ok us => .ok (us.headD "")

/-- Innermost parenthesised groups: `re.findall("\\([^()]+\\)", spec)`,
matched left to right and non-overlapping as the `re` engine does.  The
state is `none` while scanning for `(` and `some acc` inside a candidate
body (accumulated reversed). -/
def findInnerGo : Option (List Char) → List Char → List (List Char)
  | _, [] => []
  | none, '(' :: rest => findInnerGo (some []) rest
  | none, _ :: rest => findInnerGo none rest
  | some _, '(' :: rest => findInnerGo (some []) rest
  | some acc, ')' :: rest =>
    if acc.isEmpty then findInnerGo none rest
    else ('(' :: (acc.reverse ++ [')'])) :: findInnerGo none rest
  | some acc, c :: rest => findInnerGo (some (c :: acc)) rest

/-- `re.findall("\\([^()]+\\)", s)`. -/
def findallInner (s : String) : List String :=
  (findInnerGo none s.toList).map String.mk

/-- `re.search("\\([^)]+\\)", s)` as a Boolean: is there a `(` followed by
at least one character other than `)` and then a `)`. -/
def searchParenL : List Char → Bool
  | [] => false
  | '(' :: ')' :: rest => searchParenL (')' :: rest)
  | '(' :: c :: rest => (c :: rest).contains ')'
  | _ :: rest => searchParenL rest

/-- `re.search("\\([^)]+\\)", s)` as a Boolean. -/
def searchParen (s : String) : Bool := searchParenL s.toList

/-- Draw the next value from the stream of random choices that models
`random.choice`; an exhausted stream keeps answering 0. -/
def popChoice : List Nat → Nat × List Nat
  | [] => (0, [])
  | c :: cs => (c, cs)

/-- Python slice `option[1:-1]`. -/
def strInner (s : String) : String := String.mk ((s.toList.drop 1).dropLast)

/-- The inner `for option in options` loop of `get_random_sentence` (source
lines 710-712): split the group body on `|`, pick one branch by the choice
stream (`random.choice`), and replace the first occurrence of the group. -/
def replaceRound : List String → String → List Nat → String × List Nat
  | [], sp, chs => (sp, chs)
  | o :: os, sp, chs =>
    let branches := pySplit "|" (strInner o)
    let (c, chs2) := popChoice chs
    let pick := branches.getD (c % branches.length) ""
    replaceRound os (pyReplaceFirst sp o pick) chs2

/-- The `while re.search(...)` loop of `get_random_sentence` (source lines
709-712). -/
def rsLoop : Nat → List Nat → String → Except Exc String
  | 0, _, _ => .error .recursionError
  | Nat.succ fl, chs, sp =>
    if searchParen sp then
      let (sp2, chs2) := replaceRound (findallInner sp) sp chs
      rsLoop fl chs2 sp2
    else .ok sp

/-- `CFGParser.get_random_sentence(lname)` (source lines 705-714), with the
randomness of `random.choice` made explicit as a stream of choices: the
branch picked from a group with `k` alternatives is indexed by the next
stream value modulo `k`, so every possible run of the original corresponds
to some stream. -/
def get_random_sentence (fuel : Nat) (choices : List Nat) (g : Grammar) (lname : String) :
    Except Exc String :=
  match get_unwrapped fuel g lname with
  | .error e => .error e
  | .ok u => rsLoop fuel choices ("(" ++ u ++ ")")

/-! ## Concrete grammars used by the claims -/

/-- The spec's single-rule grammar `T[...] -> a b c`. -/
def gT3 : Grammar := loadG "T[...] -> a b c"

/-- The rule loaded from `T[...] -> a b c`. -/
def rT3 : Rule :=
  ⟨"T", [⟨"...", [⟨"a", "", false⟩, ⟨"b", "", false⟩, ⟨"c", "", false⟩]⟩]⟩

/-- The spec's sub-rule composition grammar. -/
def gSub : Grammar := loadG "T[X] -> A[X] | B[X]\nA[\"a\"] -> p\nB[\"b\"] -> q"

/-- A two-alternative grammar whose first alternative fails on input `a`. -/
def gBA : Grammar := loadG "T -> b | a"

/-- First alternative of `gBA`. -/
def optB : GOption := ⟨"", [⟨"b", "", false⟩]⟩

/-- Second alternative of `gBA`. -/
def optA : GOption := ⟨"", [⟨"a", "", false⟩]⟩

/-- The rule loaded from `T -> b | a`. -/
def rBA : Rule := ⟨"T", [optB, optA]⟩

/-- A parent frame waiting on a sub-rule atom, used to exercise the
candidate loop of `_parse` below the top level. -/
def frS : Frame := ⟨"", [], [⟨"S", "", true⟩]⟩

/-- Grammar whose semantics template is the empty dict `{}`. -/
def gEmptyMap : Grammar := loadG "T[\x7b\x7d] -> a"

/-- Grammar whose semantics template becomes the unbalanced `[` after angle
bracket translation, making the YAML decode fail. -/
def gAngle : Grammar := loadG "T[<] -> a"

/-- The spec's completion-scenario grammar `T -> a b | a c`. -/
def gAC : Grammar := loadG "T -> a b | a c"

/-- A grammar with an empty alternative: `T -> a |`. -/
def gEA : Grammar := loadG "T -> a |"

/-- The self-referential grammar `T -> T`. -/
def gSelf : Grammar := loadG "T -> T"

/-- The sub-rule atom of `gSelf`. -/
def conjT : Conjunct := ⟨"T", "", true⟩

/-- The single alternative of `gSelf`. -/
def optTT : GOption := ⟨"", [conjT]⟩

/-- The frame at which every descent into `gSelf`'s rule starts. -/
def frT : Frame := ⟨"", [], [conjT]⟩

/-- Two-terminal grammar `T -> a b`. -/
def gT2 : Grammar := loadG "T -> a b"

/-- A grammar referring to a missing sub-rule, assembled through `add_rule`
directly (no `check_rules` pass, as when a caller builds a parser by
hand). -/
def gGapRule : Grammar := ⟨[⟨"T", [⟨"", [⟨"A", "", true⟩]⟩]⟩], []⟩

/-- A grammar referring to a missing function, assembled the same way. -/
def gGapFunc : Grammar := ⟨[⟨"T", [⟨"", [⟨"$f", "", false⟩]⟩]⟩], []⟩

/-- Insertion of `c` at every character boundary of `s` (before, between
and after every character): the CPython result of `s.replace("", c)`. -/
def interleaveAll (s c : String) : String :=
  String.mk (c.toList ++ s.toList.foldr (fun ch acc => ch :: (c.toList ++ acc)) [])

/-- Joining token pieces back with single spaces (the inverse side of
`s.split(" ")`). -/
def joinSp : List (List Char) → List Char
  | [] => []
  | [p] => p
  | p :: ps => p ++ ' ' :: joinSp ps

/-! ## Helper lemmas -/

/-- Unfolding of a successful `optFail`. -/
theorem optFail_spec (fuel : Nat) (g : Grammar) (words : List String) (o : GOption) (r : Nat)
    (h : optFail fuel g words o = some r) :
    run fuel g words (initTask o [] 0) = .ok (.failAt r) := by
  unfold optFail at h
  cases hr : run fuel g words (initTask o [] 0) with
  | ok v =>
    cases v with
    | success t => rw [hr] at h; simp at h
    | failAt i => rw [hr] at h; simp at h; rw [h]
  | error e => rw [hr] at h; simp at h

/-- When every alternative of the list fails, the top-level loop of
`parse_raw` raises `ParseError` at the running maximum of the failure
indices. -/
theorem tryTop_allFail (fuel : Nat) (g : Grammar) (words : List String) :
    ∀ (opts : List GOption) (b0 : Nat),
      (∀ o ∈ opts, (optFail fuel g words o).isSome = true) →
      tryTop fuel g opts words (some b0) =
        .error (.parseError words ((opts.filterMap (optFail fuel g words)).foldl max b0)) := by
  intro opts
  induction opts with
  | nil => intro b0 _; simp [tryTop]
  | cons o os ih =>
    intro b0 h
    obtain ⟨r, hr⟩ := Option.isSome_iff_exists.mp (h o (by simp))
    have hrun := optFail_spec fuel g words o r hr
    have hrest := ih (max b0 r) (fun o' ho' => h o' (by simp [ho']))
    simp only [tryTop, hrun, List.filterMap_cons, hr]
    simpa [mergeBf] using hrest

/-- Alternatives that all fail are skipped by the top-level loop, leaving
some accumulated `best_fail`. -/
theorem tryTop_skip (fuel : Nat) (g : Grammar) (words : List String) :
    ∀ (pre rest : List GOption) (bf : Option Nat),
      (∀ o ∈ pre, (optFail fuel g words o).isSome = true) →
      ∃ bf2, tryTop fuel g (pre ++ rest) words bf = tryTop fuel g rest words bf2 := by
  intro pre
  induction pre with
  | nil => intro rest bf _; exact ⟨bf, rfl⟩
  | cons o os ih =>
    intro rest bf h
    obtain ⟨r, hr⟩ := Option.isSome_iff_exists.mp (h o (by simp))
    have hrun := optFail_spec fuel g words o r hr
    obtain ⟨bf2, hskip⟩ := ih rest (some (mergeBf bf r)) (fun o' ho' => h o' (by simp [ho']))
    exact ⟨bf2, by simpa [tryTop, hrun] using hskip⟩

/-- `semSteps` at an exhausted kid list returns the accumulated template,
whatever the fuel. -/
theorem semSteps_nil (fuel : Nat) (sem : String) : semSteps fuel sem [] = sem := by
  cases fuel <;> rfl

/-- `splitGo` never returns the empty list of pieces. -/
theorem splitGo_ne_nil (sep : List Char) :
    ∀ (l : List Char) (k : Nat), splitGo sep k l ≠ [] := by
  intro l
  induction l with
  | nil => intro k; cases k <;> simp [splitGo]
  | cons c rest ih =>
    intro k
    cases k with
    | zero =>
      by_cases hs : (startsL sep (c :: rest) && !sep.isEmpty) = true
      · simp [splitGo, hs]
      · simp only [splitGo, hs]
        cases hr : splitGo sep 0 rest with
        | nil => exact absurd hr (ih 0)
        | cons t ts => simp
    | succ k' => simpa [splitGo] using ih k'

/-- Splitting on a single space then re-joining with single spaces is the
identity, and no piece contains a space: `split(" ")` cuts at every space
character and only there. -/
theorem splitSp_spec :
    ∀ l : List Char,
      joinSp (pySplitL [' '] l) = l ∧
      (pySplitL [' '] l).all (fun p => !p.contains ' ') = true := by
  intro l
  induction l with
  | nil => constructor <;> rfl
  | cons c rest ih =>
    by_cases hc : c = ' '
    · subst hc
      have hstep : pySplitL [' '] (' ' :: rest) = [] :: pySplitL [' '] rest := by
        simp [pySplitL, splitGo, startsL]
      cases hr : pySplitL [' '] rest with
      | nil => exact absurd hr (splitGo_ne_nil [' '] rest 0)
      | cons t ts =>
        constructor
        · rw [hstep, hr]
          have := ih.1
          rw [hr] at this
          simpa [joinSp] using this
        · have := ih.2
          rw [hr] at this
          rw [hstep, hr]
          simpa using this
    · have hstart : startsL [' '] (c :: rest) = false := by
        simp only [startsL, Bool.and_eq_false_iff]
        refine Or.inl ?_
        simp only [decide_eq_false_iff_not]
        exact fun h => hc h.symm
      have hstep :
          pySplitL [' '] (c :: rest) =
            match pySplitL [' '] rest with
            | t :: ts => (c :: t) :: ts
            | [] => [[c]] := by
        simp [pySplitL, splitGo, hstart]
      cases hr : pySplitL [' '] rest with
      | nil => exact absurd hr (splitGo_ne_nil [' '] rest 0)
      | cons t ts =>
        rw [hr] at hstep
        have ih1 := ih.1
        have ih2 := ih.2
        rw [hr] at ih1 ih2
        constructor
        · rw [hstep]
          cases ts with
          | nil => simpa [joinSp] using ih1
          | cons t2 ts2 => simp only [joinSp] at ih1 ⊢; rw [← ih1]; simp
        · rw [hstep]
          have hcc : (' ' == c) = false := beq_eq_false_iff_ne.mpr (fun h => hc h.symm)
          simp only [List.all_cons, Bool.and_eq_true] at ih2 ⊢
          refine ⟨?_, ih2.2⟩
          simp only [List.contains_cons, hcc, Bool.false_or]
          exact ih2.1

/-- Matching the self-referential rule of `gSelf` consumes all fuel, for
every amount of fuel and from any depth: the recursion of `_parse` is
bounded only by the interpreter's stack. -/
theorem run_self_loops :
    ∀ (fuel : Nat) (parents : List Frame),
      run fuel gSelf [] (.frames frT parents 0) = .error .recursionError := by
  intro fuel
  induction fuel using Nat.strong_induction_on with
  | _ n ih =>
    match n with
    | 0 => intro parents; rfl
    | 1 => intro parents; rfl
    | Nat.succ (Nat.succ m) =>
      intro parents
      have h2 : run m gSelf [] (.frames ⟨optTT.lsemantic, [], optTT.conjuncts⟩
          (frT :: parents) 0) = .error .recursionError := ih m (by omega) (frT :: parents)
      have h1 : run (m + 2) gSelf [] (.frames frT parents 0) =
          run (m + 1) gSelf [] (.alts [optTT] frT parents 0 none) := rfl
      rw [h1]
      simp only [run, h2]

/-! ## The claims -/

/-- C1: for the grammar `T[...] -> a b c`, matching `"a b"` fails at index
2, `"a b c d"` at index 3, `"b"` at index 0 and `""` at index 0; and in
general, when every top-level alternative of the target rule fails,
`parse_raw` raises a `ParseError` carrying the maximum failure index over
the alternatives (the running `best_fail` keeps the first alternative
reaching that maximum on ties, which leaves the reported index equal to
the maximum). -/
theorem C1_furthest_failure :
    (parse_rawStr 50 gT3 "T" "a b" = .error (.parseError ["a", "b"] 2)
     ∧ parse_rawStr 50 gT3 "T" "a b c d" = .error (.parseError ["a", "b", "c", "d"] 3)
     ∧ parse_rawStr 50 gT3 "T" "b" = .error (.parseError ["b"] 0)
     ∧ parse_rawStr 50 gT3 "T" "" = .error (.parseError [""] 0))
    ∧ ∀ (fuel : Nat) (g : Grammar) (target : String) (words : List String) (rule : Rule),
        findRule g target = some rule →
        rule.options ≠ [] →
        (∀ o ∈ rule.options, (optFail fuel g words o).isSome = true) →
        parse_raw fuel g target words =
          .error (.parseError words
            ((rule.options.filterMap (optFail fuel g words)).foldl max 0)) := by
  refine ⟨⟨rfl, rfl, rfl, rfl⟩, ?_⟩
  intro fuel g target words rule hfind hne hall
  unfold parse_raw
  rw [hfind]
  show tryTop fuel g rule.options words none = _
  obtain ⟨o, os, hopts⟩ : ∃ o os, rule.options = o :: os := by
    cases h : rule.options with
    | nil => exact absurd h hne
    | cons a b => exact ⟨a, b, rfl⟩
  rw [hopts]
  obtain ⟨r, hr⟩ := Option.isSome_iff_exists.mp (hall o (by rw [hopts]; simp))
  have hrun := optFail_spec fuel g words o r hr
  simp only [tryTop, hrun, mergeBf]
  rw [tryTop_allFail fuel g words os r (fun o' ho' => hall o' (by rw [hopts]; simp [ho']))]
  simp [List.filterMap_cons, hr]

/-- C1 witness: the general furthest-failure statement applied to the
grammar `T[...] -> a b c` on the words `["a", "x"]`, whose single
alternative fails at index 1. -/
theorem C1_witness :
    parse_raw 20 gT3 "T" ["a", "x"] = .error (.parseError ["a", "x"] 1) := by
  have h := C1_furthest_failure.2 20 gT3 "T" ["a", "x"] rT3 rfl (by simp [rT3])
    (by intro o ho; simp [rT3] at ho; subst ho; rfl)
  exact h

/-- C2: `parse_raw` tries the target rule's alternatives in declared order
and decodes the first alternative whose recursive match fully succeeds
(whatever alternatives follow it); and at the candidate loop of a sub-rule
or function slot, a succeeding candidate makes `_parse` return success
immediately, the remaining candidates staying unexplored. -/
theorem C2_first_success :
    (∀ (fuel : Nat) (g : Grammar) (target : String) (words : List String) (rule : Rule)
        (pre post : List GOption) (opt : GOption) (t : PTree),
        findRule g target = some rule →
        rule.options = pre ++ opt :: post →
        (∀ o ∈ pre, (optFail fuel g words o).isSome = true) →
        run fuel g words (initTask opt [] 0) = .ok (.success t) →
        parse_raw fuel g target words = finishSem fuel t)
    ∧ (∀ (fuel : Nat) (g : Grammar) (words : List String) (post : List GOption)
        (opt : GOption) (fr : Frame) (parents : List Frame) (wi : Nat) (bf : Option Nat)
        (t : PTree),
        run fuel g words (initTask opt (fr :: parents) wi) = .ok (.success t) →
        run (fuel + 1) g words (.alts (opt :: post) fr parents wi bf) = .ok (.success t)) := by
  constructor
  · intro fuel g target words rule pre post opt t hfind hopts hpre hrun
    unfold parse_raw
    rw [hfind]
    show tryTop fuel g rule.options words none = _
    rw [hopts]
    obtain ⟨bf2, hskip⟩ := tryTop_skip fuel g words pre (opt :: post) none hpre
    rw [hskip]
    cases bf2 <;> simp [tryTop, hrun]
  · intro fuel g words post opt fr parents wi bf t hrun
    have hstep : run (fuel + 1) g words (.alts (opt :: post) fr parents wi bf) =
        match run fuel g words (initTask opt (fr :: parents) wi) with
        | .ok (.success t) => .ok (.success t)
        | .ok (.failAt r) => run fuel g words (.alts post fr parents wi (some (mergeBf bf r)))
        | .error e => .error e := rfl
    rw [hstep, hrun]

/-- C2 witness: on `T -> b | a` with input `["a"]` the failing first
alternative is skipped and the second one's tree is decoded; below the top
level, a candidate that succeeds under a waiting parent frame makes the
candidate loop return that success immediately even with another candidate
pending. -/
theorem C2_witness :
    parse_raw 20 gBA "T" ["a"] = finishSem 20 (PTree.node "" [])
    ∧ run 11 gBA ["a"] (.alts [optA, optB] frS [] 0 none) =
        .ok (.success (PTree.node "" [("", PTree.node "" [])])) := by
  constructor
  · exact C2_first_success.1 20 gBA "T" ["a"] rBA [optB] [] optA (PTree.node "" [])
      rfl rfl (by intro o ho; simp [optB] at ho; subst ho; rfl) rfl
  · exact C2_first_success.2 10 gBA ["a"] [optB] optA frS [] 0 none
      (PTree.node "" [("", PTree.node "" [])]) rfl

/-- C3: for the grammar `T[X] -> A[X] | B[X]`, `A["a"] -> p`,
`B["b"] -> q` (shown loaded as declared), matching `["p"]` yields the
semantics value `"a"` and matching `["q"]` yields `"b"`: the child's
extracted template is substituted for the atom's local semantics key in the
parent template, and the result is decoded. -/
theorem C3_subrule_composition :
    gSub.rules =
      [⟨"T", [⟨"X", [⟨"A", "X", true⟩]⟩, ⟨"X", [⟨"B", "X", true⟩]⟩]⟩,
       ⟨"A", [⟨"\"a\"", [⟨"p", "", false⟩]⟩]⟩,
       ⟨"B", [⟨"\"b\"", [⟨"q", "", false⟩]⟩]⟩]
    ∧ parse_raw 50 gSub "T" ["p"] = .ok (.str "a")
    ∧ parse_raw 50 gSub "T" ["q"] = .ok (.str "b") := ⟨rfl, rfl, rfl⟩

/-- C4 counterexample: `next_word` is not exception-free for every grammar:
on `T -> a |` (whose loaded rule table is shown, with its empty second
alternative) the completion walk subscripts `conjuncts[0]` of the empty
alternative and raises `IndexError`. -/
theorem C4_counterexample :
    gEA.rules = [⟨"T", [⟨"", [⟨"a", "", false⟩]⟩, ⟨"", []⟩]⟩]
    ∧ next_word 50 gEA "T" [] = .error .indexError := ⟨rfl, rfl⟩

/-- C4 as amended: the three grammar-gap cases do degrade to an empty
result rather than raising — an unknown target rule, an unknown sub-rule
reference and an unknown function reference each yield `[]` — but an empty
alternative in a traversed rule raises `IndexError`. -/
theorem C4_gap_cases :
    next_word 50 gEA "Z" [] = .ok []
    ∧ next_word 50 gGapRule "T" [] = .ok []
    ∧ next_word 50 gGapFunc "T" [] = .ok []
    ∧ next_word 50 gEA "T" [] = .error .indexError := ⟨rfl, rfl, rfl, rfl⟩

/-- C5 counterexample: on the spec's completion grammar `T -> a b | a c`,
`next_word("T", [])` returns `["a", "a"]`, which is not duplicate-free. -/
theorem C5_counterexample :
    next_word 50 gAC "T" [] = .ok ["a", "a"]
    ∧ ¬ (["a", "a"] : List String).Nodup := ⟨rfl, by decide⟩

/-- C5 as amended: `next_word` returns a plain list that repeats a token
once per alternative yielding it, not a set: on `T -> a b | a c` (loaded
rules shown) the prefix `["a"]` gives `["b", "c"]` but the empty prefix
gives `["a", "a"]`. -/
theorem C5_duplicates :
    gAC.rules =
      [⟨"T", [⟨"", [⟨"a", "", false⟩, ⟨"b", "", false⟩]⟩,
              ⟨"", [⟨"a", "", false⟩, ⟨"c", "", false⟩]⟩]⟩]
    ∧ next_word 50 gAC "T" ["a"] = .ok ["b", "c"]
    ∧ next_word 50 gAC "T" [] = .ok ["a", "a"] := ⟨rfl, rfl, rfl⟩

/-- C6: on the non-left-recursive grammar `T -> a |`, the random-choice run
that picks the empty branch makes `get_random_sentence` return the literal
string `"()"` (a regex artifact of the innermost-group rewriting), and
matching that sentence against `T` fails at index 0 — the generated
sentence is not accepted by the matcher. -/
theorem C6_roundtrip_failure :
    get_unwrapped 50 gEA "T" = .ok "(a|)"
    ∧ get_random_sentence 50 [1] gEA "T" = .ok "()"
    ∧ parse_rawStr 50 gEA "T" "()" = .error (.parseError ["()"] 0) := ⟨rfl, rfl, rfl⟩

/-- C7: matching against the self-referential grammar `T -> T` exhausts
every fuel bound: `_parse` has no depth guard of its own, so the recursion
is unbounded and ends in the interpreter's `RecursionError` (the modelled
fuel exhaustion), not in a reported Grammar-Too-Deep error — no such error
kind exists in the code. -/
theorem C7_unbounded_recursion :
    ∀ fuel : Nat, parse_raw fuel gSelf "T" [] = .error .recursionError := by
  intro fuel
  have h : run fuel gSelf [] (initTask optTT [] 0) = .error .recursionError :=
    run_self_loops fuel []
  show tryTop fuel gSelf [optTT] [] none = .error .recursionError
  simp only [tryTop, h]

/-- C8 counterexample: for the grammar `T[{}] -> a`, `parse` returns the
empty map on input `["a"]` although `parse_raw` raises nothing — it
succeeds with the same empty map — so "parse returns `{}` exactly when
parse_raw raises a GrammarError or ParseError" fails in the only-if
direction. -/
theorem C8_counterexample :
    parse 50 gEmptyMap "T" ["a"] = .ok (.map [])
    ∧ parse_raw 50 gEmptyMap "T" ["a"] = .ok (.map []) := ⟨rfl, rfl⟩

/-- C8 as amended: `parse` returns the empty map whenever `parse_raw`
raises a `GrammarError` or a `ParseError`; every other exception — the
plain missing-target `Exception`, YAML decode failures, and the rest —
propagates unchanged, and a successful `parse_raw` value is passed
through (so `{}` can also be the value of a successful parse). -/
theorem C8_error_routing :
    ∀ (fuel : Nat) (g : Grammar) (target : String) (words : List String),
      (∀ m, parse_raw fuel g target words = .error (.grammarError m) →
        parse fuel g target words = .ok (.map []))
      ∧ (∀ ws i, parse_raw fuel g target words = .error (.parseError ws i) →
        parse fuel g target words = .ok (.map []))
      ∧ (∀ e, parse_raw fuel g target words = .error e →
        (∀ m, e ≠ Exc.grammarError m) → (∀ ws i, e ≠ Exc.parseError ws i) →
        parse fuel g target words = .error e)
      ∧ (∀ v, parse_raw fuel g target words = .ok v →
        parse fuel g target words = .ok v) := by
  intro fuel g target words
  refine ⟨?_, ?_, ?_, ?_⟩
  · intro m h; unfold parse; rw [h]
  · intro ws i h; unfold parse; rw [h]
  · intro e h hg hp
    unfold parse
    rw [h]
    cases e with
    | grammarError m => exact absurd rfl (hg m)
    | parseError ws i => exact absurd rfl (hp ws i)
    | exc m => rfl
    | assertionError => rfl
    | indexError => rfl
    | yamlError m => rfl
    | recursionError => rfl
  · intro v h; unfold parse; rw [h]

/-- C8 witness: the missing-target `Exception` and a YAML decode failure
propagate out of `parse`, while a `ParseError` is converted to the empty
map. -/
theorem C8_witness :
    parse 50 gBA "Z" [] = .error (.exc "Target Z not present in grammar rules")
    ∧ parse 50 gAngle "T" ["a"] = .error (.yamlError "yaml: cannot decode [")
    ∧ parse 50 gT3 "T" ["b"] = .ok (.map []) := by
  refine ⟨?_, ?_, ?_⟩
  · exact (C8_error_routing 50 gBA "Z" []).2.2.1 _ rfl
      (fun m h => Exc.noConfusion h) (fun ws i h => Exc.noConfusion h)
  · exact (C8_error_routing 50 gAngle "T" ["a"]).2.2.1 _ rfl
      (fun m h => Exc.noConfusion h) (fun ws i h => Exc.noConfusion h)
  · exact (C8_error_routing 50 gT3 "T" ["b"]).2.1 ["b"] 0 rfl

/-- C9: semantics substitution is Python `str.replace` on the atom's local
semantics key; with an empty key and a populated subtree the child's text
is inserted at every character boundary of the current template, and with
an empty template as well the result is exactly the child's text. -/
theorem C9_blind_replace :
    (∀ (n : Nat) (s k : String) (t : PTree),
        get_semantics (n + 1) (.node s [(k, t)]) = pyReplace s k (get_semantics n t))
    ∧ (∀ (n : Nat) (s : String) (t : PTree),
        get_semantics (n + 1) (.node s [("", t)]) = interleaveAll s (get_semantics n t))
    ∧ (∀ (n : Nat) (t : PTree),
        get_semantics (n + 1) (.node "" [("", t)]) = get_semantics n t) := by
  have h1 : ∀ (n : Nat) (s k : String) (t : PTree),
      get_semantics (n + 1) (.node s [(k, t)]) = pyReplace s k (get_semantics n t) := by
    intro n s k t
    cases t with
    | node l2 k2 =>
      calc get_semantics (n + 1) (.node s [(k, .node l2 k2)])
          = semSteps n (pyReplace s k (semSteps n l2 k2)) [] := rfl
        _ = pyReplace s k (semSteps n l2 k2) := semSteps_nil n _
  have h2 : ∀ (n : Nat) (s : String) (t : PTree),
      get_semantics (n + 1) (.node s [("", t)]) = interleaveAll s (get_semantics n t) := by
    intro n s t
    rw [h1]
    rfl
  refine ⟨h1, h2, ?_⟩
  intro n t
  rw [h2]
  show String.mk ((get_semantics n t).toList ++ []) = get_semantics n t
  rw [List.append_nil]
  generalize get_semantics n t = c
  cases c
  rfl

/-- C10: the string form of `words` is tokenized by `split(" ")`: splitting
cuts exactly at single space characters (re-joining with single spaces is
the identity and no token contains a space), the empty string becomes the
one-element list `[""]` (so the empty token sequence is only expressible as
an empty list: on `T -> a |` the empty list parses but `""` does not), and
consecutive spaces produce empty-string tokens that must match terminals
verbatim (so `"a  b"` fails against `T -> a b` at index 1 while `"a b"`
succeeds). -/
theorem C10_space_tokenization :
    (∀ l : List Char,
        joinSp (pySplitL [' '] l) = l ∧
        (pySplitL [' '] l).all (fun p => !p.contains ' ') = true)
    ∧ strToWords "" = [""]
    ∧ strToWords "a  b" = ["a", "", "b"]
    ∧ parse_rawStr 50 gT2 "T" "a  b" = .error (.parseError ["a", "", "b"] 1)
    ∧ parse_rawStr 50 gT2 "T" "a b" = .ok .null
    ∧ parse_raw 50 gEA "T" [] = .ok .null
    ∧ parse_rawStr 50 gEA "T" "" = .error (.parseError [""] 0) :=
  ⟨splitSp_spec, rfl, rfl, rfl, rfl, rfl, rfl⟩

end GrammarParser
